import Mathlib

/-!
Verification of the concurrency-and-conflict core of dbt-ui:
the three-way merge engine (backend/utils/merge_utils.py),
the per-worktree operation lock (backend/utils/operation_lock.py),
the background dbt command task (backend/routes/dbt_routes.py),
and the write-file coordinator (backend/routes/file_routes.py).
-/

namespace DbtUI

/-! ### Python string helpers

Embeddings of the Python `str` operations used by `merge_utils.py`:
`str.splitlines(keepends=True)`, `''.join`, `s.endswith('\n')`, and the
substring test `pat in s`. -/

/-- Characters treated as line breaks by Python `str.splitlines`. -/
def isLineBreak (c : Char) : Bool :=
  c = '\n' ∨ c = '\r' ∨ c = '\x0b' ∨ c = '\x0c' ∨
  c = '\x1c' ∨ c = '\x1d' ∨ c = '\x1e' ∨ c = '\x85' ∨
  c = ' ' ∨ c = ' '

/-- Worker for `splitKeepEnds`: accumulates the current line (reversed) and
splits at line breaks, treating a `"\r\n"` pair as a single break, exactly as
Python `str.splitlines(keepends=True)` does. -/
def splitLinesAux : List Char → List Char → List (List Char)
  | acc, [] => if acc = [] then [] else [acc.reverse]
  | acc, '\r' :: '\n' :: rest => (acc.reverse ++ ['\r', '\n']) :: splitLinesAux [] rest
  | acc, '\r' :: rest => (acc.reverse ++ ['\r']) :: splitLinesAux [] rest
  | acc, c :: rest =>
    if isLineBreak c then (acc.reverse ++ [c]) :: splitLinesAux [] rest
    else splitLinesAux (c :: acc) rest

/-- Python `s.splitlines(keepends=True)`. -/
def splitKeepEnds (s : String) : List String :=
  (splitLinesAux [] s.data).map String.mk

/-- Python `''.join(lines)`. -/
def joinLines (lines : List String) : String :=
  lines.foldl (· ++ ·) ""

/-- Python `s.endswith('\n')`: true iff the last character is a newline. -/
def endsWithNewline (s : String) : Bool :=
  s.data.getLast? = some '\n'

/-- Python substring test `pat in hay`. -/
def strContains (hay pat : String) : Bool :=
  decide (pat.data <:+: hay.data)

/-! ### difflib.SequenceMatcher model

`three_way_merge` relies on `difflib.SequenceMatcher(None, a, b)` (stdlib).
We embed it by its specified behaviour: `find_longest_match` returns the
longest matching block, and among maximal blocks the one starting earliest
in `a`, then earliest in `b`; `get_matching_blocks` recursively splits
around that block, collapses adjacent blocks, and appends the `(la, lb, 0)`
sentinel; `get_opcodes` turns consecutive blocks into
equal/replace/delete/insert opcodes.  (The autojunk heuristic, which only
affects inputs of 200 or more lines, is not modelled; no theorem below
depends on the matcher output for such inputs.) -/

/-- Length of the longest common prefix of two line lists. -/
def commonPrefixLen : List String → List String → Nat
  | x :: xs, y :: ys => if x = y then commonPrefixLen xs ys + 1 else 0
  | _, _ => 0

/-- Python slice `l[lo:hi]`. -/
def sliceList (l : List String) (lo hi : Nat) : List String :=
  (l.take hi).drop lo

/-- Size of the matching block of `a[alo:ahi]` and `b[blo:bhi]` starting at
positions `i` and `j`. -/
def matchLenAt (a b : List String) (ahi bhi i j : Nat) : Nat :=
  commonPrefixLen (sliceList a i ahi) (sliceList b j bhi)

/-- difflib `SequenceMatcher.find_longest_match(alo, ahi, blo, bhi)`:
longest matching block, earliest in `a`, then earliest in `b`. -/
def findLongestMatch (a b : List String) (alo ahi blo bhi : Nat) :
    Nat × Nat × Nat :=
  (List.range' alo (ahi - alo)).foldl (fun best i =>
    (List.range' blo (bhi - blo)).foldl (fun best j =>
      let k := matchLenAt a b ahi bhi i j
      if k > best.2.2 then (i, j, k) else best) best)
    (alo, blo, 0)

/-- A candidate block `best` considered by `findLongestMatch` is either the
initial `(alo, blo, 0)` or lies within the search bounds. -/
def BlockInBounds (alo ahi blo bhi : Nat) (best : Nat × Nat × Nat) : Prop :=
  best = (alo, blo, 0) ∨
  (alo ≤ best.1 ∧ blo ≤ best.2.1 ∧ best.1 + best.2.2 ≤ ahi ∧
   best.2.1 + best.2.2 ≤ bhi)

/-- difflib `SequenceMatcher.get_matching_blocks` recursion: find the longest
match, then recurse on the regions to its left and right.  The in-order
concatenation yields the blocks already sorted.  The recursion is bounded by
an explicit fuel so that it reduces by evaluation; each recursive call
strictly decreases `(ahi - alo) + (bhi - blo)` (by `findLongestMatch_bounds`),
so any fuel above that measure computes the same result
(`matchingBlocksFuel_stable`) and the fuel case is never hit. -/
def matchingBlocksFuel (a b : List String) :
    Nat → Nat → Nat → Nat → Nat → List (Nat × Nat × Nat)
  | 0, _, _, _, _ => []
  | fuel + 1, alo, ahi, blo, bhi =>
    match findLongestMatch a b alo ahi blo bhi with
    | (i, j, k) =>
      if k = 0 then []
      else
        (if alo < i ∧ blo < j then
            matchingBlocksFuel a b fuel alo i blo j else []) ++
        ((i, j, k) :: (if i + k < ahi ∧ j + k < bhi then
            matchingBlocksFuel a b fuel (i + k) ahi (j + k) bhi else []))

/-- difflib `get_matching_blocks` recursion entry point, with provably
sufficient fuel. -/
def matchingBlocksRec (a b : List String) (alo ahi blo bhi : Nat) :
    List (Nat × Nat × Nat) :=
  matchingBlocksFuel a b ((ahi - alo) + (bhi - blo) + 1) alo ahi blo bhi

/-- difflib `SequenceMatcher.get_matching_blocks` post-processing: collapse
adjacent matching blocks (mirrors the `non_adjacent` accumulation loop). -/
def collapseBlocks : Nat × Nat × Nat → List (Nat × Nat × Nat) → List (Nat × Nat × Nat)
  | (i1, j1, k1), [] => if k1 ≠ 0 then [(i1, j1, k1)] else []
  | (i1, j1, k1), (i2, j2, k2) :: rest =>
    if i1 + k1 = i2 ∧ j1 + k1 = j2 then collapseBlocks (i1, j1, k1 + k2) rest
    else (if k1 ≠ 0 then [(i1, j1, k1)] else []) ++ collapseBlocks (i2, j2, k2) rest

/-- difflib `SequenceMatcher.get_matching_blocks`: the recursive block list
(already in sorted order), collapsed, with the `(la, lb, 0)` sentinel. -/
def getMatchingBlocks (a b : List String) : List (Nat × Nat × Nat) :=
  collapseBlocks (0, 0, 0) (matchingBlocksRec a b 0 a.length 0 b.length) ++
    [(a.length, b.length, 0)]

/-- The tag of a difflib opcode. -/
inductive DiffTag
  | equal
  | replace
  | delete
  | insert
deriving DecidableEq

/-- A difflib opcode `(tag, i1, i2, j1, j2)`. -/
structure Opcode where
  tag : DiffTag
  i1 : Nat
  i2 : Nat
  j1 : Nat
  j2 : Nat
deriving DecidableEq

/-- difflib `SequenceMatcher.get_opcodes` main loop over matching blocks. -/
def opcodesLoop : Nat → Nat → List (Nat × Nat × Nat) → List Opcode
  | _, _, [] => []
  | i, j, (ai, bj, size) :: rest =>
    (if i < ai ∧ j < bj then [⟨.replace, i, ai, j, bj⟩]
     else if i < ai then [⟨.delete, i, ai, j, bj⟩]
     else if j < bj then [⟨.insert, i, ai, j, bj⟩]
     else []) ++
    (if size ≠ 0 then [⟨.equal, ai, ai + size, bj, bj + size⟩] else []) ++
    opcodesLoop (ai + size) (bj + size) rest

/-- difflib `SequenceMatcher(None, a, b).get_opcodes()`. -/
def getOpcodes (a b : List String) : List Opcode :=
  opcodesLoop 0 0 (getMatchingBlocks a b)

/-! ### three_way_merge (merge_utils.py, lines 6-141) -/

/-- The kind of change recorded for a baseline line index
(`user_changes` / `disk_changes` values in `three_way_merge`). -/
inductive ChangeKind
  | insert
  | delete
  | replace
deriving DecidableEq

/-- Python dicts `user_changes` / `disk_changes`: mapping an original line
index to the recorded change. -/
abbrev ChangeMap := Nat → Option (ChangeKind × List String)

/-- Python dict assignment `m[i] = v`. -/
def mapSet (m : ChangeMap) (i : Nat) (v : ChangeKind × List String) : ChangeMap :=
  fun n => if n = i then some v else m n

/-- One iteration of the change-map construction loop of `three_way_merge`
(lines 59-83): record the change of one opcode at each affected original
line index. -/
def applyOpcodeChanges (lines : List String) (m : ChangeMap) (op : Opcode) : ChangeMap :=
  if op.tag = .equal then m
  else
    (List.range' op.i1 (max op.i2 (op.i1 + 1) - op.i1)).foldl
      (fun m i =>
        if op.tag = .insert ∧ i = op.i1 then
          mapSet m i (.insert, sliceList lines op.j1 op.j2)
        else if op.tag = .delete then mapSet m i (.delete, [])
        else if op.tag = .replace then
          if i = op.i1 then mapSet m i (.replace, sliceList lines op.j1 op.j2)
          else mapSet m i (.delete, [])
        else m)
      m

/-- The change map built from all opcodes of one side. -/
def buildChanges (lines : List String) (opcodes : List Opcode) : ChangeMap :=
  opcodes.foldl (applyOpcodeChanges lines) (fun _ => none)

/-- State threaded through the line-by-line merge loop of `three_way_merge`:
`merged_lines`, `has_conflicts`, `conflicts`. -/
structure MergeState where
  merged : List String
  hasConflicts : Bool
  conflicts : List String
deriving DecidableEq

/-- The conflict start marker line emitted by `three_way_merge`. -/
def markerLine : String := "<<<<<<< YOUR CHANGES\n"

/-- The conflict separator line. -/
def separatorLine : String := "=======\n"

/-- The conflict end marker line. -/
def diskEndLine : String := ">>>>>>> DISK VERSION\n"

/-- The placeholder used when one side deleted the line. -/
def deletedPlaceholder : String := "(line deleted)\n"

/-- The substring `write_file` searches for to detect conflicts
(file_routes.py line 245). -/
def conflictMarker : String := "<<<<<<< YOUR CHANGES"

/-- The body of the `while i < len(original_lines)` loop of
`three_way_merge` (lines 90-133), for one original line index `i`. -/
def mergeStep (uc dc : ChangeMap) (i : Nat) (line : String) (st : MergeState) :
    MergeState :=
  match uc i, dc i with
  | none, none => { st with merged := st.merged ++ [line] }
  | none, some (t, newLines) =>
    if t = .delete then st else { st with merged := st.merged ++ newLines }
  | some (t, newLines), none =>
    if t = .delete then st else { st with merged := st.merged ++ newLines }
  | some (ut, userNew), some (_dt, diskNew) =>
    if userNew = diskNew then
      if ut ≠ .delete then { st with merged := st.merged ++ userNew } else st
    else
      { merged := st.merged ++ [markerLine] ++
          (if userNew = [] then [deletedPlaceholder] else userNew) ++
          [separatorLine] ++
          (if diskNew = [] then [deletedPlaceholder] else diskNew) ++
          [diskEndLine],
        hasConflicts := true,
        conflicts := st.conflicts ++ ["Conflict at line " ++ toString (i + 1)] }

/-- The full merge loop: walk the original lines in order with their index. -/
def mergeLines (uc dc : ChangeMap) : Nat → List String → MergeState → MergeState
  | _, [], st => st
  | i, line :: rest, st => mergeLines uc dc (i + 1) rest (mergeStep uc dc i line st)

/-- Embeds `three_way_merge(original, user_version, disk_version)` from
merge_utils.py: returns `(merged_content, has_conflicts, conflicts)`.
`difflib.unified_diff(x, y)` yields no lines exactly when the line lists are
equal, so the three early-return emptiness tests are embedded as list
equalities. -/
def three_way_merge (original user_version disk_version : String) :
    String × Bool × List String :=
  let original_lines := splitKeepEnds original
  let user_lines := splitKeepEnds user_version
  let disk_lines := splitKeepEnds disk_version
  if user_lines = original_lines ∧ disk_lines = original_lines then
    (original, false, [])
  else if disk_lines = original_lines then (user_version, false, [])
  else if user_lines = original_lines then (disk_version, false, [])
  else
    let user_changes := buildChanges user_lines (getOpcodes original_lines user_lines)
    let disk_changes := buildChanges disk_lines (getOpcodes original_lines disk_lines)
    let st := mergeLines user_changes disk_changes 0 original_lines ⟨[], false, []⟩
    let merged0 := joinLines st.merged
    let merged :=
      if endsWithNewline original ∧ endsWithNewline merged0 = false then
        merged0 ++ "\n"
      else merged0
    (merged, st.hasConflicts, st.conflicts)

/-- Embeds `simple_merge(original, user_version, disk_version)` from merge_utils.py:
returns `(merged_content, changes_were_made_by_others)`. -/
def simple_merge (original user_version disk_version : String) : String × Bool :=
  if disk_version = original then (user_version, false)
  else if user_version = original then (disk_version, true)
  else if user_version = disk_version then (user_version, false)
  else
    let r := three_way_merge original user_version disk_version
    if r.2.1 then (r.1, true) else (r.1, true)

/-! ### write_file (file_routes.py, lines 209-272)

The filesystem is abstracted: `disk_content` is the current stored content
(the `open(...).read()` result) and the second component of the result is
the content persisted by `open(..., 'w').write(...)` (`none` when nothing
is written).  The `path` response field and the HTTP error paths for
missing/non-text files are outside the modelled merge logic. -/

/-- The JSON response of `/api/write-file`. -/
structure WriteResponse where
  success : Bool
  merged : Bool
  hasConflicts : Bool
  content : Option String
  diskContent : Option String
deriving DecidableEq

/-- Embeds `write_file(file_data)`: `disk_content` is the stored content, `content`
the client's content, `original_content` the optional baseline.  Returns the
response and the content written to storage (`none` if not persisted). -/
def write_file (disk_content content : String) (original_content : Option String) :
    WriteResponse × Option String :=
  match original_content with
  | some orig =>
    if disk_content ≠ orig then
      let m := simple_merge orig content disk_content
      if strContains m.1 conflictMarker then
        ({ success := true, merged := true, hasConflicts := true,
           content := some m.1, diskContent := some disk_content }, none)
      else
        ({ success := true, merged := m.2, hasConflicts := false,
           content := if m.2 then some m.1 else none, diskContent := none },
         some m.1)
    else
      ({ success := true, merged := false, hasConflicts := false,
         content := none, diskContent := none }, some content)
  | none =>
    ({ success := true, merged := false, hasConflicts := false,
       content := none, diskContent := none }, some content)

/-! ### Per-worktree operation lock (operation_lock.py)

`threading.Lock` state is the `locked` flag; `acquire(blocking=False)` is an
atomic test-and-set.  `uuid.uuid4()` is modelled by drawing from the
monotone counter `nextId` (freshness/uniqueness is exactly what a uuid
provides).  `datetime.now()` is modelled by the `now` field. -/

/-- Class `WorktreeLock`: lock state for a specific worktree. -/
structure WorktreeLock where
  locked : Bool
  current_operation : Option String
  operation_started_at : Option Nat
  last_completed_operation : Option String
  last_completed_at : Option Nat
  last_completion_id : Option Nat
deriving DecidableEq

/-- A freshly constructed `WorktreeLock()`. -/
def WorktreeLock.init : WorktreeLock :=
  ⟨false, none, none, none, none, none⟩

/-- The process-wide `_worktree_locks` dictionary together with the uuid
and clock state.  Lazy creation of an entry has no observable effect other
than mapping the key to a fresh `WorktreeLock()`, so the dictionary is a
total function defaulting to `WorktreeLock.init`. -/
structure Registry where
  locks : String → WorktreeLock
  nextId : Nat
  now : Nat

/-- The registry at process start: no key has been touched. -/
def Registry.init : Registry :=
  ⟨fun _ => WorktreeLock.init, 0, 0⟩

/-- Pointwise update of the lock dictionary at one key. -/
def updLocks (f : String → WorktreeLock) (key : String) (v : WorktreeLock) :
    String → WorktreeLock :=
  fun k => if k = key then v else f k

/-- Embeds `_get_worktree_lock(worktree_path)`. -/
def get_worktree_lock (reg : Registry) (key : String) : WorktreeLock :=
  reg.locks key

/-- Embeds `acquire_lock(worktree_path, operation_name)` (lines 49-57): non-blocking
test-and-set; on success records the operation label and start time. -/
def acquire_lock (reg : Registry) (key operation_name : String) :
    Bool × Registry :=
  let wt := get_worktree_lock reg key
  if wt.locked then (false, reg)
  else
    (true,
     { reg with
       locks := updLocks reg.locks key
         { wt with
           locked := true,
           current_operation := some operation_name,
           operation_started_at := some reg.now } })

/-- Embeds `release_lock(worktree_path, success=True)` (lines 60-75): records the
completion metadata (whatever label was active, or none) with a fresh
completion id, clears the current operation and frees the lock.  When the
lock is not held, `lock.release()` raises `RuntimeError` after the metadata
assignments; the exception is swallowed and the lock stays free, so the
metadata updates persist in every case. -/
def release_lock (reg : Registry) (key : String) (_success : Bool := true) :
    Registry :=
  let wt := get_worktree_lock reg key
  { reg with
    locks := updLocks reg.locks key
      { locked := false,
        current_operation := none,
        operation_started_at := none,
        last_completed_operation := wt.current_operation,
        last_completed_at := some reg.now,
        last_completion_id := some reg.nextId },
    nextId := reg.nextId + 1 }

/-- The dictionary returned by `get_lock_status` (lines 33-46). -/
structure LockStatus where
  is_locked : Bool
  operation : Option String
  started_at : Option Nat
  last_completed_operation : Option String
  last_completed_at : Option Nat
  last_completion_id : Option Nat
deriving DecidableEq

/-- Embeds `get_lock_status(worktree_path)`. -/
def get_lock_status (reg : Registry) (key : String) : LockStatus :=
  let wt := get_worktree_lock reg key
  { is_locked := wt.locked,
    operation := if wt.locked then wt.current_operation else none,
    started_at := if wt.locked then wt.operation_started_at else none,
    last_completed_operation := wt.last_completed_operation,
    last_completed_at := wt.last_completed_at,
    last_completion_id := wt.last_completion_id }

/-- Embeds `is_locked(worktree_path)`. -/
def is_locked (reg : Registry) (key : String) : Bool :=
  (get_worktree_lock reg key).locked

/-- A registry operation, for stating trace properties. -/
inductive LockOp
  | acq (key label : String)
  | rel (key : String)
deriving DecidableEq

/-- Apply one registry operation. -/
def applyLockOp (reg : Registry) : LockOp → Registry
  | .acq key label => (acquire_lock reg key label).2
  | .rel key => release_lock reg key

/-- Apply a trace of registry operations in order. -/
def applyLockOps (reg : Registry) (ops : List LockOp) : Registry :=
  ops.foldl applyLockOp reg

/-- The completion ids generated along a trace (one per release call). -/
def issuedIds (reg : Registry) : List LockOp → List Nat
  | [] => []
  | op :: rest =>
    (match op with
     | .rel _ => [reg.nextId]
     | .acq _ _ => []) ++ issuedIds (applyLockOp reg op) rest

/-! ### Background dbt task and /api/dbt-command (dbt_routes.py)

`run_dbt_command_task` wraps the external command execution in
`try/except/finally`.  The externally determined outcome is one of: the
command returned a `CommandResult`, it raised `subprocess.TimeoutExpired`,
or some other exception was raised; the `finally` clause runs in each
case.  The task's writes to `dbt_command_status` and the `finally`
release are embedded directly. -/

/-- Class `CommandResult` from subprocess_utils.py. -/
structure CommandResult where
  returncode : Int
  stdout : String
  stderr : String
deriving DecidableEq

/-- Property `CommandResult.success`. -/
def CommandResult.success (r : CommandResult) : Bool :=
  r.returncode = 0

/-- Property `CommandResult.error`: stderr, or stdout if stderr is empty. -/
def CommandResult.error (r : CommandResult) : String :=
  if r.stderr = "" then r.stdout else r.stderr

/-- How the wrapped execution of `run_dbt_command_task` ends. -/
inductive TaskOutcome
  | completed (result : CommandResult)
  | timedOut
  | raised (message : String)
deriving DecidableEq

/-- One entry of the `dbt_command_status` dictionary. -/
inductive DbtJobStatus
  | running (command selector : String) (started_at : Nat)
  | succeeded (command selector : String) (completed_at : Nat) (output : String)
  | failed (command selector : String) (completed_at : Nat) (error : String)
deriving DecidableEq

/-- The mutable state touched by `run_dbt_command_task`: the lock registry
and the `dbt_command_status` dictionary. -/
structure World where
  reg : Registry
  dbt_command_status : String → Option DbtJobStatus

/-- Python dict assignment `dbt_command_status[path_str] = v`. -/
def updStatus (f : String → Option DbtJobStatus) (k : String) (v : DbtJobStatus) :
    String → Option DbtJobStatus :=
  fun k2 => if k2 = k then some v else f k2

/-- Embeds `run_dbt_command_task(path, command, selector, ...)` (lines 68-133):
sets the status to running, records the outcome of the wrapped execution
(success / failure / timeout / any exception), and releases the worktree
lock in the `finally` clause. -/
def run_dbt_command_task (w : World) (path_str command selector : String)
    (outcome : TaskOutcome) : World :=
  let w1 : World :=
    { w with dbt_command_status := (updStatus w.dbt_command_status path_str
        (.running command selector w.reg.now)) }
  let w2 : World :=
    match outcome with
    | .completed r =>
      if r.success then
        { w1 with dbt_command_status := (updStatus w1.dbt_command_status path_str
            (.succeeded command selector w.reg.now r.stdout)) }
      else
        { w1 with dbt_command_status := (updStatus w1.dbt_command_status path_str
            (.failed command selector w.reg.now r.error)) }
    | .timedOut =>
      { w1 with dbt_command_status := (updStatus w1.dbt_command_status path_str
          (.failed command selector w.reg.now
            ("dbt " ++ command ++ " timed out after 5 minutes"))) }
    | .raised msg =>
      { w1 with dbt_command_status := (updStatus w1.dbt_command_status path_str
          (.failed command selector w.reg.now msg)) }
  { w2 with reg := release_lock w2.reg path_str }

/-! ### Concurrent /api/dbt-command callers (dbt_routes.py, lines 136-197)

Each caller for the same resource key executes, on its own thread, the
pre-check (`get_lock_status`, 409 on busy) followed by the non-blocking
`acquire_lock` (409 with the current operation label on failure, schedule
the background task and answer "started" on success).  The lock `acquire`
is the only mutation and is atomic, so a concurrent execution is a trace of
the small-step relation `DbtStep` interleaving the callers' steps in any
order.  No release occurs while the callers race (the winner's background
task has not finished). -/

/-- Where one `/api/dbt-command` caller stands. -/
inductive CallerPhase
  | start
  | checked
  | started
  | conflicted (operation : Option String)
deriving DecidableEq

/-- True once the caller has produced its HTTP response. -/
def CallerPhase.finished : CallerPhase → Bool
  | .started => true
  | .conflicted _ => true
  | _ => false

/-- System state: the shared registry and each caller's phase. -/
structure DbtSys (n : Nat) where
  reg : Registry
  phase : Fin n → CallerPhase

/-- Pointwise update of one caller's phase. -/
def updPhase {n : Nat} (f : Fin n → CallerPhase) (i : Fin n) (p : CallerPhase) :
    Fin n → CallerPhase :=
  fun j => if j = i then p else f j

/-- One interleaved step of some caller `i` handling `/api/dbt-command` for
resource `key`; `labels i` is the operation name caller `i` would install. -/
inductive DbtStep {n : Nat} (key : String) (labels : Fin n → String) :
    DbtSys n → DbtSys n → Prop
  | check_busy (s : DbtSys n) (i : Fin n) :
      s.phase i = .start →
      (get_lock_status s.reg key).is_locked = true →
      DbtStep key labels s
        { s with phase := (updPhase s.phase i
            (.conflicted (get_lock_status s.reg key).operation)) }
  | check_free (s : DbtSys n) (i : Fin n) :
      s.phase i = .start →
      (get_lock_status s.reg key).is_locked = false →
      DbtStep key labels s { s with phase := updPhase s.phase i .checked }
  | acquire_win (s : DbtSys n) (i : Fin n) :
      s.phase i = .checked →
      (acquire_lock s.reg key (labels i)).1 = true →
      DbtStep key labels s
        { reg := (acquire_lock s.reg key (labels i)).2,
          phase := updPhase s.phase i .started }
  | acquire_fail (s : DbtSys n) (i : Fin n) :
      s.phase i = .checked →
      (acquire_lock s.reg key (labels i)).1 = false →
      DbtStep key labels s
        { s with phase := (updPhase s.phase i
            (.conflicted (get_lock_status s.reg key).operation)) }

/-- Reachability by interleaved caller steps. -/
def DbtReach {n : Nat} (key : String) (labels : Fin n → String) :
    DbtSys n → DbtSys n → Prop :=
  Relation.ReflTransGen (DbtStep key labels)

/-- The initial state: every caller is about to run, on the given registry. -/
def initSys (n : Nat) (reg : Registry) : DbtSys n :=
  ⟨reg, fun _ => .start⟩

/-- Invariant of the caller race: while the key's lock is free nobody has
answered; once it is busy, exactly one caller has won, the lock carries that
caller's label, and every conflict response carries it too. -/
def SysInv {n : Nat} (key : String) (labels : Fin n → String) (s : DbtSys n) : Prop :=
  ((s.reg.locks key).locked = false →
    ∀ i, s.phase i = .start ∨ s.phase i = .checked) ∧
  ((s.reg.locks key).locked = true →
    ∃ i, s.phase i = .started ∧
      (s.reg.locks key).current_operation = some (labels i) ∧
      (∀ j, s.phase j = .started → j = i) ∧
      (∀ j, ∀ o, s.phase j = .conflicted o → o = some (labels i)))


/-- Labels of the two concrete witness callers. -/
def c8labels : Fin 2 → String :=
  fun i => if i = 0 then "Running all models" else "Compiling entire project"

/-- Witness trace, state 0: both callers about to run on a fresh registry. -/
def c8s0 : DbtSys 2 := initSys 2 Registry.init

/-- State 1: caller 0 passed the pre-check (lock free). -/
def c8s1 : DbtSys 2 := { c8s0 with phase := updPhase c8s0.phase 0 .checked }

/-- State 2: caller 0 won the lock and answered "started". -/
def c8s2 : DbtSys 2 :=
  { reg := (acquire_lock c8s1.reg "wt" (c8labels 0)).2,
    phase := updPhase c8s1.phase 0 .started }

/-- State 3: caller 1 hit the busy pre-check and answered 409 with the
winner's label. -/
def c8s3 : DbtSys 2 :=
  { c8s2 with phase := (updPhase c8s2.phase 1
      (.conflicted (get_lock_status c8s2.reg "wt").operation)) }


/-! ### Theorems -/

lemma commonPrefixLen_le_left (xs ys : List String) :
    commonPrefixLen xs ys ≤ xs.length := by
  induction xs generalizing ys with
  | nil => simp [commonPrefixLen]
  | cons x xs ih =>
    cases ys with
    | nil => simp [commonPrefixLen]
    | cons y ys =>
      simp only [commonPrefixLen]
      split
      · have := ih ys; simp; omega
      · simp

lemma commonPrefixLen_le_right (xs ys : List String) :
    commonPrefixLen xs ys ≤ ys.length := by
  induction xs generalizing ys with
  | nil => simp [commonPrefixLen]
  | cons x xs ih =>
    cases ys with
    | nil => simp [commonPrefixLen]
    | cons y ys =>
      simp only [commonPrefixLen]
      split
      · have := ih ys; simp; omega
      · simp

lemma matchLenAt_le_left (a b : List String) (ahi bhi i j : Nat) :
    i + matchLenAt a b ahi bhi i j ≤ max ahi i := by
  have h1 : matchLenAt a b ahi bhi i j ≤ ((a.take ahi).drop i).length :=
    commonPrefixLen_le_left _ _
  simp only [List.length_drop, List.length_take] at h1
  omega

lemma matchLenAt_le_right (a b : List String) (ahi bhi i j : Nat) :
    j + matchLenAt a b ahi bhi i j ≤ max bhi j := by
  have h1 : matchLenAt a b ahi bhi i j ≤ ((b.take bhi).drop j).length :=
    commonPrefixLen_le_right _ _
  simp only [List.length_drop, List.length_take] at h1
  omega

/-- Invariant preserved by a `List.foldl`. -/
lemma foldl_preserve {α β : Type} (P : β → Prop) (f : β → α → β)
    (l : List α) (init : β) (h0 : P init)
    (hstep : ∀ acc x, x ∈ l → P acc → P (f acc x)) :
    P (l.foldl f init) := by
  induction l generalizing init with
  | nil => exact h0
  | cons x xs ih =>
    exact ih (f init x) (hstep init x (List.mem_cons_self x xs) h0)
      (fun acc y hy => hstep acc y (List.mem_cons_of_mem x hy))

/-- The result of `findLongestMatch` is the initial `(alo, blo, 0)` or a
block within bounds. -/
lemma findLongestMatch_bounds (a b : List String) (alo ahi blo bhi i j k : Nat)
    (hm : findLongestMatch a b alo ahi blo bhi = (i, j, k)) :
    (i = alo ∧ j = blo ∧ k = 0) ∨
    (alo ≤ i ∧ blo ≤ j ∧ i + k ≤ ahi ∧ j + k ≤ bhi) := by
  have hP : BlockInBounds alo ahi blo bhi (findLongestMatch a b alo ahi blo bhi) := by
    unfold findLongestMatch
    apply foldl_preserve (BlockInBounds alo ahi blo bhi)
    · exact Or.inl rfl
    · intro acc i2 hi2 hacc
      have hiR := List.mem_range'_1.mp hi2
      apply foldl_preserve (BlockInBounds alo ahi blo bhi)
      · exact hacc
      · intro acc2 j2 hj2 hacc2
        have hjR := List.mem_range'_1.mp hj2
        show BlockInBounds alo ahi blo bhi
          (if matchLenAt a b ahi bhi i2 j2 > acc2.2.2 then
            (i2, j2, matchLenAt a b ahi bhi i2 j2) else acc2)
        split
        · right
          refine ⟨hiR.1, hjR.1, ?_, ?_⟩
          · show i2 + matchLenAt a b ahi bhi i2 j2 ≤ ahi
            have := matchLenAt_le_left a b ahi bhi i2 j2
            omega
          · show j2 + matchLenAt a b ahi bhi i2 j2 ≤ bhi
            have := matchLenAt_le_right a b ahi bhi i2 j2
            omega
        · exact hacc2
  rw [hm] at hP
  rcases hP with hb | hb
  · left
    simpa [Prod.ext_iff] using hb
  · right
    exact hb

/-- The recursion of `matchingBlocksFuel` never exhausts fuel above the
decreasing measure, so all sufficient fuels agree. -/
lemma matchingBlocksFuel_stable (a b : List String) :
    ∀ fuel1 fuel2 alo ahi blo bhi,
      (ahi - alo) + (bhi - blo) < fuel1 → (ahi - alo) + (bhi - blo) < fuel2 →
      matchingBlocksFuel a b fuel1 alo ahi blo bhi =
        matchingBlocksFuel a b fuel2 alo ahi blo bhi := by
  intro fuel1
  induction fuel1 with
  | zero => intro fuel2 alo ahi blo bhi h1; omega
  | succ f1 ih =>
    intro fuel2 alo ahi blo bhi h1 h2
    cases fuel2 with
    | zero => omega
    | succ f2 =>
      show (match findLongestMatch a b alo ahi blo bhi with
        | (i, j, k) =>
          if k = 0 then []
          else
            (if alo < i ∧ blo < j then
                matchingBlocksFuel a b f1 alo i blo j else []) ++
            ((i, j, k) :: (if i + k < ahi ∧ j + k < bhi then
                matchingBlocksFuel a b f1 (i + k) ahi (j + k) bhi else []))) =
        (match findLongestMatch a b alo ahi blo bhi with
        | (i, j, k) =>
          if k = 0 then []
          else
            (if alo < i ∧ blo < j then
                matchingBlocksFuel a b f2 alo i blo j else []) ++
            ((i, j, k) :: (if i + k < ahi ∧ j + k < bhi then
                matchingBlocksFuel a b f2 (i + k) ahi (j + k) bhi else [])))
      rcases hm : findLongestMatch a b alo ahi blo bhi with ⟨i, j, k⟩
      have hb := findLongestMatch_bounds a b alo ahi blo bhi i j k hm
      by_cases hk : k = 0
      · simp [hk]
      · simp only [hk, if_false]
        have hk1 : 1 ≤ k := by omega
        congr 1
        · split
          · rename_i hg
            exact ih f2 alo i blo j (by rcases hb with hb | hb <;> omega)
              (by rcases hb with hb | hb <;> omega)
          · rfl
        · congr 1
          split
          · rename_i hg
            exact ih f2 (i + k) ahi (j + k) bhi
              (by rcases hb with hb | hb <;> omega)
              (by rcases hb with hb | hb <;> omega)
          · rfl


/-- C6: for baseline `"a\nb\nc\n"`, user version replacing line 2 with
`"LOCAL\n"` and disk version replacing line 2 with `"REMOTE\n"`,
`three_way_merge` reports a conflict and the merged text begins with
`"a\n"`, contains the conflict block with the LOCAL line before the
separator marker and the REMOTE line after it, and ends with `"c\n"`. -/
theorem three_way_merge_divergent_conflict :
    three_way_merge "a\nb\nc\n" "a\nLOCAL\nc\n" "a\nREMOTE\nc\n" =
      ("a\n" ++ "<<<<<<< YOUR CHANGES\n" ++ "LOCAL\n" ++ "=======\n" ++
       "REMOTE\n" ++ ">>>>>>> DISK VERSION\n" ++ "c\n", true,
       ["Conflict at line 2"]) := by decide

/-- C7 evaluation: on baseline `"a\n"`, user version `"a\nb\n"` (the user
appended the line `"b\n"` at end of file) and disk version `"c\n"` (the
other side replaced line 1), `three_way_merge` silently drops the user's
one-sided insertion: the merge loop only walks baseline indices
`0..len-1`, so the insert recorded at index `len(original_lines)` is never
applied.  The result is `"c\n"` with no conflict, and the inserted line is
absent from the merged output. -/
theorem three_way_merge_drops_eof_insert :
    three_way_merge "a\n" "a\nb\n" "c\n" = ("c\n", false, []) ∧
    strContains (three_way_merge "a\n" "a\nb\n" "c\n").1 "b" = false := by decide

/-- C9: when the write request omits `originalContent`, `write_file`
performs no comparison with the stored content (the result does not depend
on it at all) and unconditionally overwrites the file with the client's
content, responding success with `merged = false` and
`hasConflicts = false`. -/
theorem write_file_no_baseline_overwrites (disk_content content : String) :
    write_file disk_content content none =
      ({ success := true, merged := false, hasConflicts := false,
         content := none, diskContent := none }, some content) ∧
    write_file disk_content content none = write_file "" content none :=
  ⟨rfl, rfl⟩

/-- C5 counterexample: the claim states `simple_merge(B, B, R)` returns `R`
with no conflict for `R ≠ B`, but at `B = "x=1\n"`, `R = "x=3\n"` the
returned flag is `true` (it reports that others changed the content), so
the result is not `(R, false)`. -/
theorem simple_merge_fast_path_counterexample :
    "x=3\n" ≠ "x=1\n" ∧
    simple_merge "x=1\n" "x=1\n" "x=3\n" ≠ ("x=3\n", false) := by decide

/-- C5 amended: the merge entry point `simple_merge` has three fast paths:
`simple_merge(B, B, B) = (B, false)`; `simple_merge(B, L, B) = (L, false)`
for `L ≠ B` (stored content unchanged, only the user edited); and
`simple_merge(B, B, R) = (R, true)` for `R ≠ B` — the merged text is
exactly `R` with no conflict markers added, but the returned boolean is
`true` because it reports that changes were made by others, not a merge
conflict. -/
theorem simple_merge_fast_paths (B L R : String) :
    simple_merge B B B = (B, false) ∧
    (L ≠ B → simple_merge B L B = (L, false)) ∧
    (R ≠ B → simple_merge B B R = (R, true)) := by
  refine ⟨?_, ?_, ?_⟩
  · simp [simple_merge]
  · intro _
    simp [simple_merge]
  · intro hR
    simp [simple_merge, hR]

/-- C5 witness: the amended fast-path behaviour at concrete inputs. -/
theorem simple_merge_fast_paths_witness :
    simple_merge "x=1\n" "x=2\n" "x=1\n" = ("x=2\n", false) ∧
    simple_merge "x=1\n" "x=1\n" "x=3\n" = ("x=3\n", true) :=
  ⟨(simple_merge_fast_paths "x=1\n" "x=2\n" "x=3\n").2.1 (by decide),
   (simple_merge_fast_paths "x=1\n" "x=2\n" "x=3\n").2.2 (by decide)⟩

/-! ### Lock lemmas -/

lemma updLocks_self (f : String → WorktreeLock) (key : String) (v : WorktreeLock) :
    updLocks f key v key = v := by
  simp [updLocks]

lemma updLocks_other (f : String → WorktreeLock) (key : String) (v : WorktreeLock)
    (k : String) (h : k ≠ key) : updLocks f key v k = f k := by
  simp [updLocks, h]

lemma release_lock_self (reg : Registry) (key : String) :
    (release_lock reg key).locks key =
      { locked := false, current_operation := none, operation_started_at := none,
        last_completed_operation := (reg.locks key).current_operation,
        last_completed_at := some reg.now,
        last_completion_id := some reg.nextId } := by
  simp [release_lock, get_worktree_lock, updLocks]

lemma release_lock_nextId (reg : Registry) (key : String) :
    (release_lock reg key).nextId = reg.nextId + 1 := rfl

lemma acquire_lock_nextId (reg : Registry) (key label : String) :
    (acquire_lock reg key label).2.nextId = reg.nextId := by
  simp only [acquire_lock]
  split <;> rfl

lemma applyLockOp_nextId_acq (reg : Registry) (k l : String) :
    (applyLockOp reg (.acq k l)).nextId = reg.nextId :=
  acquire_lock_nextId reg k l

/-- A busy lock stays busy under any operation that is not a release of its
key. -/
lemma locked_preserved (reg : Registry) (key : String) (op : LockOp)
    (hop : op ≠ .rel key) (h : (reg.locks key).locked = true) :
    ((applyLockOp reg op).locks key).locked = true := by
  cases op with
  | acq k2 label =>
    by_cases hk : k2 = key
    · subst hk
      simp [applyLockOp, acquire_lock, get_worktree_lock, h]
    · simp only [applyLockOp, acquire_lock, get_worktree_lock]
      split
      · exact h
      · simp only
        rw [updLocks_other _ _ _ _ (fun h2 => hk h2.symm)]
        exact h
  | rel k2 =>
    have hk : key ≠ k2 := fun h2 => hop (by rw [h2])
    simp only [applyLockOp, release_lock]
    show (updLocks reg.locks k2 _ key).locked = true
    rw [updLocks_other _ _ _ _ hk]
    exact h

/-- A busy lock stays busy along any trace with no release of its key. -/
lemma locked_preserved_ops (key : String) :
    ∀ ops : List LockOp, ∀ reg : Registry,
      (∀ op ∈ ops, op ≠ .rel key) →
      (reg.locks key).locked = true →
      ((applyLockOps reg ops).locks key).locked = true := by
  intro ops
  induction ops with
  | nil => intro reg _ h; exact h
  | cons op rest ih =>
    intro reg hops h
    exact ih (applyLockOp reg op)
      (fun op2 h2 => hops op2 (List.mem_cons_of_mem op h2))
      (locked_preserved reg key op (hops op (List.mem_cons_self op rest)) h)

/-- Every completion id generated along a trace is at least the starting
counter value. -/
lemma issuedIds_lower :
    ∀ ops : List LockOp, ∀ reg : Registry, ∀ id ∈ issuedIds reg ops,
      reg.nextId ≤ id := by
  intro ops
  induction ops with
  | nil => intro reg id h; simp [issuedIds] at h
  | cons op rest ih =>
    intro reg id h
    cases op with
    | acq k l =>
      simp only [issuedIds, List.nil_append] at h
      have := ih (applyLockOp reg (.acq k l)) id h
      rw [applyLockOp_nextId_acq] at this
      exact this
    | rel k =>
      simp only [issuedIds, List.singleton_append, List.mem_cons] at h
      rcases h with h | h
      · omega
      · have := ih (applyLockOp reg (.rel k)) id h
        have h2 : (applyLockOp reg (.rel k)).nextId = reg.nextId + 1 := rfl
        omega

/-- The completion ids generated along a trace are strictly increasing. -/
lemma issuedIds_sorted :
    ∀ ops : List LockOp, ∀ reg : Registry,
      (issuedIds reg ops).Pairwise (· < ·) := by
  intro ops
  induction ops with
  | nil => intro reg; simp [issuedIds]
  | cons op rest ih =>
    intro reg
    cases op with
    | acq k l =>
      simpa only [issuedIds, List.nil_append] using ih (applyLockOp reg (.acq k l))
    | rel k =>
      simp only [issuedIds, List.singleton_append]
      refine List.Pairwise.cons ?_ (ih (applyLockOp reg (.rel k)))
      intro id hid
      have h1 := issuedIds_lower rest (applyLockOp reg (.rel k)) id hid
      have h2 : (applyLockOp reg (.rel k)).nextId = reg.nextId + 1 := rfl
      omega

/-- C1: `acquire_lock(key, label)` returns true iff the key's lock is
currently free, atomically transitioning it to busy with the given label
and current time; after a successful acquire, as long as no release of the
key occurs, every further acquire on the same key returns false — at most
one caller holds a given key's lock at any instant. -/
theorem acquire_lock_mutual_exclusion (reg : Registry) (key label : String) :
    ((acquire_lock reg key label).1 = true ↔ (reg.locks key).locked = false) ∧
    ((acquire_lock reg key label).1 = true →
      ((acquire_lock reg key label).2.locks key).locked = true ∧
      ((acquire_lock reg key label).2.locks key).current_operation = some label ∧
      ((acquire_lock reg key label).2.locks key).operation_started_at = some reg.now) ∧
    (∀ ops : List LockOp, ∀ label2 : String,
      (∀ op ∈ ops, op ≠ LockOp.rel key) →
      (acquire_lock reg key label).1 = true →
      (acquire_lock (applyLockOps (acquire_lock reg key label).2 ops) key label2).1 =
        false) := by
  have hiff : (acquire_lock reg key label).1 = true ↔ (reg.locks key).locked = false := by
    simp only [acquire_lock, get_worktree_lock]
    cases h : (reg.locks key).locked <;> simp [h]
  have hpost : (acquire_lock reg key label).1 = true →
      (acquire_lock reg key label).2.locks key =
        { reg.locks key with
          locked := true,
          current_operation := some label,
          operation_started_at := some reg.now } := by
    intro h1
    have hfree := hiff.mp h1
    simp only [acquire_lock, get_worktree_lock, hfree]
    simp [updLocks_self]
  refine ⟨hiff, ?_, ?_⟩
  · intro h1
    rw [hpost h1]
    exact ⟨rfl, rfl, rfl⟩
  · intro ops label2 hops h1
    have hbusy : (((acquire_lock reg key label).2).locks key).locked = true := by
      rw [hpost h1]
    have hstill := locked_preserved_ops key ops (acquire_lock reg key label).2 hops hbusy
    generalize hS : applyLockOps (acquire_lock reg key label).2 ops = reg2 at hstill ⊢
    simp [acquire_lock, get_worktree_lock, hstill]

/-- C1 witness: after a successful acquire on a fresh registry and a trace
containing another acquire attempt on the same key and a release of a
different key, a further acquire on the key still fails. -/
theorem acquire_lock_mutual_exclusion_witness :
    (acquire_lock (applyLockOps (acquire_lock Registry.init "wt" "op1").2
        [LockOp.acq "wt" "op2", LockOp.rel "other"]) "wt" "op3").1 = false :=
  (acquire_lock_mutual_exclusion Registry.init "wt" "op1").2.2
    [LockOp.acq "wt" "op2", LockOp.rel "other"] "op3" (by decide) (by decide)

/-- C4: `release_lock` is idempotent and safe to call when the lock is not
held: every call records completion metadata (whatever operation label was
active, or none) with the freshly drawn completion id, clears the current
operation and leaves the lock free; and the completion ids generated along
any trace of operations are pairwise distinct, so each release's id
differs from every previously generated one. -/
theorem release_lock_idempotent_fresh :
    (∀ reg : Registry, ∀ key : String,
      ((release_lock reg key).locks key).locked = false ∧
      ((release_lock reg key).locks key).current_operation = none ∧
      ((release_lock reg key).locks key).last_completed_operation =
        (reg.locks key).current_operation ∧
      ((release_lock reg key).locks key).last_completed_at = some reg.now ∧
      ((release_lock reg key).locks key).last_completion_id = some reg.nextId ∧
      (release_lock reg key).nextId = reg.nextId + 1) ∧
    (∀ reg : Registry, ∀ ops : List LockOp, (issuedIds reg ops).Nodup) := by
  constructor
  · intro reg key
    rw [release_lock_self reg key]
    exact ⟨rfl, rfl, rfl, rfl, rfl, rfl⟩
  · intro reg ops
    exact (issuedIds_sorted ops reg).imp Nat.ne_of_lt

/-- C2: `run_dbt_command_task` releases the per-key lock exactly once per
submit, on every exit path: whatever the outcome of the wrapped execution
(success, non-zero failure, timeout, or any other exception), the lock
registry after the task equals exactly one `release_lock` applied to the
registry before it — so the fresh-id counter advances by exactly one and
the key's lock is left free. -/
theorem run_dbt_command_task_releases_once
    (w : World) (path_str command selector : String) (outcome : TaskOutcome) :
    (run_dbt_command_task w path_str command selector outcome).reg =
      release_lock w.reg path_str ∧
    ((run_dbt_command_task w path_str command selector outcome).reg.locks
        path_str).locked = false ∧
    (run_dbt_command_task w path_str command selector outcome).reg.nextId =
      w.reg.nextId + 1 := by
  have hreg : (run_dbt_command_task w path_str command selector outcome).reg =
      release_lock w.reg path_str := by
    cases outcome with
    | completed r =>
      simp only [run_dbt_command_task]
      split <;> rfl
    | timedOut => rfl
    | raised msg => rfl
  refine ⟨hreg, ?_, ?_⟩
  · rw [hreg, release_lock_self]
  · rw [hreg, release_lock_nextId]

/-! ### Merge-loop lemmas -/

/-- When both sides carry the same change map, one merge step never raises
the conflict flag. -/
lemma mergeStep_flag_false_of_eq (uc : ChangeMap) (i : Nat) (line : String)
    (st : MergeState) (h : st.hasConflicts = false) :
    (mergeStep uc uc i line st).hasConflicts = false := by
  cases hu : uc i with
  | none => simp [mergeStep, hu, h]
  | some v =>
    rcases v with ⟨t, nl⟩
    simp only [mergeStep, hu]
    simp [h]
    split <;> simp [h]

/-- When both sides carry the same change map, the merge loop reports no
conflict. -/
lemma mergeLines_flag_false_of_eq (uc : ChangeMap) :
    ∀ lines : List String, ∀ i : Nat, ∀ st : MergeState,
      st.hasConflicts = false →
      (mergeLines uc uc i lines st).hasConflicts = false := by
  intro lines
  induction lines with
  | nil => intro i st h; exact h
  | cons line rest ih =>
    intro i st h
    exact ih (i + 1) (mergeStep uc uc i line st)
      (mergeStep_flag_false_of_eq uc i line st h)

/-- One merge step preserves the invariant that a raised conflict flag comes
with the conflict start marker line in the merged output. -/
lemma mergeStep_marker (uc dc : ChangeMap) (i : Nat) (line : String)
    (st : MergeState) (h : st.hasConflicts = true → markerLine ∈ st.merged) :
    (mergeStep uc dc i line st).hasConflicts = true →
      markerLine ∈ (mergeStep uc dc i line st).merged := by
  cases hu : uc i with
  | none =>
    cases hd : dc i with
    | none =>
      simp only [mergeStep, hu, hd]
      intro hf
      exact List.mem_append.mpr (Or.inl (h hf))
    | some v =>
      rcases v with ⟨t, nl⟩
      simp only [mergeStep, hu, hd]
      split
      · exact h
      · intro hf
        exact List.mem_append.mpr (Or.inl (h hf))
  | some v =>
    rcases v with ⟨t, nl⟩
    cases hd : dc i with
    | none =>
      simp only [mergeStep, hu, hd]
      split
      · exact h
      · intro hf
        exact List.mem_append.mpr (Or.inl (h hf))
    | some v2 =>
      rcases v2 with ⟨t2, nl2⟩
      simp only [mergeStep, hu, hd]
      split
      · split
        · intro hf
          exact List.mem_append.mpr (Or.inl (h hf))
        · exact h
      · intro _
        simp [markerLine]

/-- If the merge loop ends with the conflict flag raised, the conflict
start marker line occurs among the merged lines. -/
lemma mergeLines_marker (uc dc : ChangeMap) :
    ∀ lines : List String, ∀ i : Nat, ∀ st : MergeState,
      (st.hasConflicts = true → markerLine ∈ st.merged) →
      (mergeLines uc dc i lines st).hasConflicts = true →
      markerLine ∈ (mergeLines uc dc i lines st).merged := by
  intro lines
  induction lines with
  | nil => intro i st h; exact h
  | cons line rest ih =>
    intro i st h
    exact ih (i + 1) (mergeStep uc dc i line st) (mergeStep_marker uc dc i line st h)

lemma joinLines_data_aux :
    ∀ ls : List String, ∀ acc : String,
      (ls.foldl (· ++ ·) acc).data = acc.data ++ (ls.map String.data).flatten := by
  intro ls
  induction ls with
  | nil => intro acc; simp
  | cons x xs ih =>
    intro acc
    simp only [List.foldl_cons, List.map_cons, List.flatten_cons]
    rw [ih (acc ++ x), String.data_append]
    simp

/-- The characters of `''.join(lines)` are the concatenation of the lines'
characters. -/
lemma joinLines_data (ls : List String) :
    (joinLines ls).data = (ls.map String.data).flatten := by
  unfold joinLines
  rw [joinLines_data_aux]
  rfl

/-- If the marker line occurs among the merged lines, the conflict marker
substring occurs in the joined text. -/
lemma marker_infix_of_mem (ls : List String) (h : markerLine ∈ ls) :
    conflictMarker.data <:+: (joinLines ls).data := by
  obtain ⟨s, t, rfl⟩ := List.append_of_mem h
  refine ⟨(s.map String.data).flatten, '\n' :: (t.map String.data).flatten, ?_⟩
  rw [joinLines_data]
  have hm : markerLine.data = conflictMarker.data ++ ['\n'] := by decide
  simp [hm]

/-- A substring of `s` is a substring of `s ++ u`. -/
lemma infix_append_str {l₁ : List Char} (s u : String)
    (h : l₁ <:+: s.data) : l₁ <:+: (s ++ u).data := by
  obtain ⟨x, y, hx⟩ := h
  exact ⟨x, y ++ u.data, by rw [String.data_append, ← hx]; simp⟩

/-- When `three_way_merge` reports a conflict, the merged text contains the
literal conflict marker substring. -/
lemma strContains_marker_of_flag (B L D : String)
    (h : (three_way_merge B L D).2.1 = true) :
    strContains (three_way_merge B L D).1 conflictMarker = true := by
  by_cases c1 : splitKeepEnds L = splitKeepEnds B ∧ splitKeepEnds D = splitKeepEnds B
  · simp only [three_way_merge, if_pos c1] at h
    cases h
  · by_cases c2 : splitKeepEnds D = splitKeepEnds B
    · simp only [three_way_merge, if_neg c1, if_pos c2] at h
      cases h
    · by_cases c3 : splitKeepEnds L = splitKeepEnds B
      · simp only [three_way_merge, if_neg c1, if_neg c2, if_pos c3] at h
        cases h
      · simp only [three_way_merge, if_neg c1, if_neg c2, if_neg c3] at h ⊢
        have hmem := mergeLines_marker
          (buildChanges (splitKeepEnds L) (getOpcodes (splitKeepEnds B) (splitKeepEnds L)))
          (buildChanges (splitKeepEnds D) (getOpcodes (splitKeepEnds B) (splitKeepEnds D)))
          (splitKeepEnds B) 0 ⟨[], false, []⟩ (fun hf => by cases hf) h
        have hinf := marker_infix_of_mem _ hmem
        unfold strContains
        split
        · exact decide_eq_true (infix_append_str _ _ hinf)
        · exact decide_eq_true hinf

/-- With the user version equal to the baseline, `three_way_merge` takes a
fast path and reports no conflict. -/
lemma three_way_merge_user_unchanged (B D : String) :
    (three_way_merge B B D).2.1 = false := by
  unfold three_way_merge
  by_cases c2 : splitKeepEnds D = splitKeepEnds B
  · rw [if_pos ⟨rfl, c2⟩]
  · rw [if_neg (fun hc => c2 hc.2), if_neg c2, if_pos rfl]

/-- With the user version equal to the disk version, both change maps
coincide and `three_way_merge` reports no conflict. -/
lemma three_way_merge_user_eq_disk (B L : String) :
    (three_way_merge B L L).2.1 = false := by
  unfold three_way_merge
  by_cases c3 : splitKeepEnds L = splitKeepEnds B
  · rw [if_pos ⟨c3, c3⟩]
  · rw [if_neg (fun hc => c3 hc.1), if_neg c3, if_neg c3]
    exact mergeLines_flag_false_of_eq
      (buildChanges (splitKeepEnds L) (getOpcodes (splitKeepEnds B) (splitKeepEnds L)))
      (splitKeepEnds B) 0 ⟨[], false, []⟩ rfl

/-- When `three_way_merge` reports a conflict, neither fast path of
`simple_merge` applies and it returns the merged text with flag `true`. -/
lemma simple_merge_of_conflict (B L D : String) (hD : D ≠ B)
    (hC : (three_way_merge B L D).2.1 = true) :
    simple_merge B L D = ((three_way_merge B L D).1, true) := by
  have hLB : L ≠ B := by
    intro he
    subst he
    rw [three_way_merge_user_unchanged] at hC
    cases hC
  have hLD : L ≠ D := by
    intro he
    subst he
    rw [three_way_merge_user_eq_disk] at hC
    cases hC
  simp only [simple_merge, if_neg hD, if_neg hLB, if_neg hLD]
  split <;> rfl

/-- C3: conflict atomicity of the write path.  When the stored content
differs from the client's baseline and the three-way merge of
(baseline, local, stored) yields conflicts, `write_file` persists nothing
and responds with both the conflict-marked merged text and the current
stored content; moreover, for every input, the `diskContent` field is
present in the response only when `hasConflicts` is true. -/
theorem write_file_conflict_atomic (B L D : String)
    (hD : D ≠ B) (hC : (three_way_merge B L D).2.1 = true) :
    write_file D L (some B) =
      ({ success := true, merged := true, hasConflicts := true,
         content := some (three_way_merge B L D).1,
         diskContent := some D }, none) ∧
    (∀ D2 L2 : String, ∀ ob : Option String,
      (write_file D2 L2 ob).1.diskContent ≠ none →
      (write_file D2 L2 ob).1.hasConflicts = true) := by
  constructor
  · have hsm := simple_merge_of_conflict B L D hD hC
    have hmark := strContains_marker_of_flag B L D hC
    simp [write_file, hD, hsm, hmark]
  · intro D2 L2 ob
    cases ob with
    | none => intro hne; exact absurd rfl hne
    | some o =>
      by_cases hne : D2 ≠ o
      · simp only [write_file, if_pos hne]
        split
        · intro _; rfl
        · intro hne2; exact absurd rfl hne2
      · simp only [write_file, if_neg hne]
        intro hne2; exact absurd rfl hne2

/-- C3 witness: the concrete divergent edit of P11-style shape is withheld
from disk and returned with both versions. -/
theorem write_file_conflict_atomic_witness :
    write_file "a\nREMOTE\nc\n" "a\nLOCAL\nc\n" (some "a\nb\nc\n") =
      ({ success := true, merged := true, hasConflicts := true,
         content := some (three_way_merge "a\nb\nc\n" "a\nLOCAL\nc\n" "a\nREMOTE\nc\n").1,
         diskContent := some "a\nREMOTE\nc\n" }, none) :=
  (write_file_conflict_atomic "a\nb\nc\n" "a\nLOCAL\nc\n" "a\nREMOTE\nc\n"
    (by decide) (by decide)).1

/-- C10: whenever the stored content differs from the baseline,
`write_file` decides `hasConflicts` by searching the merged text for the
literal substring `"<<<<<<< YOUR CHANGES"` (not by the merge engine's
conflict flag): the file is withheld and a conflict response including
`diskContent` is returned exactly when the merged result contains that
substring, and otherwise the merged result is persisted.  In particular, at
the concrete input where the substring originates from the user's own
content, the merge itself produces no conflict (`has_conflicts = false`)
and yet the conflict response is returned and nothing is written. -/
theorem write_file_marker_decides (B L D : String) (hD : D ≠ B) :
    ((write_file D L (some B)).2 = none ↔
      strContains (simple_merge B L D).1 conflictMarker = true) ∧
    (strContains (simple_merge B L D).1 conflictMarker = true →
      write_file D L (some B) =
        ({ success := true, merged := true, hasConflicts := true,
           content := some (simple_merge B L D).1, diskContent := some D }, none)) ∧
    (strContains (simple_merge B L D).1 conflictMarker = false →
      write_file D L (some B) =
        ({ success := true, merged := (simple_merge B L D).2, hasConflicts := false,
           content := if (simple_merge B L D).2 = true then some (simple_merge B L D).1
             else none,
           diskContent := none }, some (simple_merge B L D).1)) ∧
    (three_way_merge "a\nb\n" "<<<<<<< YOUR CHANGES\nb\n" "a\nB2\n").2.1 = false ∧
    write_file "a\nB2\n" "<<<<<<< YOUR CHANGES\nb\n" (some "a\nb\n") =
      ({ success := true, merged := true, hasConflicts := true,
         content := some ("<<<<<<< YOUR CHANGES\n" ++ "B2\n"),
         diskContent := some "a\nB2\n" }, none) := by
  refine ⟨?_, ?_, ?_, by decide, by decide⟩
  · by_cases hmk : strContains (simple_merge B L D).1 conflictMarker = true
    · simp [write_file, hD, hmk]
    · have hmk2 : strContains (simple_merge B L D).1 conflictMarker = false := by
        cases hcs : strContains (simple_merge B L D).1 conflictMarker
        · rfl
        · exact absurd hcs hmk
      simp [write_file, hD, hmk2]
  · intro hmk
    simp [write_file, hD, hmk]
  · intro hmk2
    simp [write_file, hD, hmk2]

/-- C10 witness: the marker test decides persistence at a concrete diverged
input. -/
theorem write_file_marker_decides_witness :
    (write_file "x=3\n" "x=2\n" (some "x=1\n")).2 = none ↔
      strContains (simple_merge "x=1\n" "x=2\n" "x=3\n").1 conflictMarker = true :=
  (write_file_marker_decides "x=1\n" "x=2\n" "x=3\n" (by decide)).1

/-! ### Single-winner property of concurrent /api/dbt-command calls -/

lemma updPhase_self {n : Nat} (f : Fin n → CallerPhase) (i : Fin n) (p : CallerPhase) :
    updPhase f i p i = p := by
  simp [updPhase]

lemma updPhase_other {n : Nat} (f : Fin n → CallerPhase) (i j : Fin n) (p : CallerPhase)
    (h : j ≠ i) : updPhase f i p j = f j := by
  simp [updPhase, h]

lemma SysInv_step {n : Nat} (key : String) (labels : Fin n → String)
    {s s2 : DbtSys n} (hinv : SysInv key labels s)
    (hstep : DbtStep key labels s s2) : SysInv key labels s2 := by
  cases hstep with
  | check_busy i h1 h2 =>
    have hlocked : (s.reg.locks key).locked = true := h2
    have hopeq : (get_lock_status s.reg key).operation =
        (s.reg.locks key).current_operation := by
      simp [get_lock_status, get_worktree_lock, hlocked]
    obtain ⟨w, hw, hop, huniq, hconf⟩ := hinv.2 hlocked
    have hwi : w ≠ i := by
      intro he
      rw [he, h1] at hw
      cases hw
    constructor
    · intro hfree
      have hfree2 : (s.reg.locks key).locked = false := hfree
      rw [hlocked] at hfree2
      cases hfree2
    · intro _
      refine ⟨w, ?_, hop, ?_, ?_⟩
      · show updPhase s.phase i
            (.conflicted (get_lock_status s.reg key).operation) w = .started
        rw [updPhase_other _ _ _ _ hwi]
        exact hw
      · intro j hj
        have hj2 : updPhase s.phase i
            (.conflicted (get_lock_status s.reg key).operation) j = .started := hj
        by_cases hji : j = i
        · subst hji
          rw [updPhase_self] at hj2
          cases hj2
        · rw [updPhase_other _ _ _ _ hji] at hj2
          exact huniq j hj2
      · intro j o hj
        have hj2 : updPhase s.phase i
            (.conflicted (get_lock_status s.reg key).operation) j =
              .conflicted o := hj
        by_cases hji : j = i
        · subst hji
          rw [updPhase_self] at hj2
          injection hj2 with hj3
          rw [← hj3, hopeq, hop]
        · rw [updPhase_other _ _ _ _ hji] at hj2
          exact hconf j o hj2
  | check_free i h1 h2 =>
    have hfree : (s.reg.locks key).locked = false := h2
    constructor
    · intro _ i2
      show updPhase s.phase i .checked i2 = .start ∨
        updPhase s.phase i .checked i2 = .checked
      by_cases hji : i2 = i
      · subst hji
        rw [updPhase_self]
        exact Or.inr rfl
      · rw [updPhase_other _ _ _ _ hji]
        exact hinv.1 hfree i2
    · intro hl
      have hl2 : (s.reg.locks key).locked = true := hl
      rw [hfree] at hl2
      cases hl2
  | acquire_win i h1 h2 =>
    have hfree : (s.reg.locks key).locked = false := by
      cases hb : (s.reg.locks key).locked
      · rfl
      · simp [acquire_lock, get_worktree_lock, hb] at h2
    have hpost : (acquire_lock s.reg key (labels i)).2.locks key =
        { s.reg.locks key with
          locked := true,
          current_operation := some (labels i),
          operation_started_at := some s.reg.now } := by
      simp [acquire_lock, get_worktree_lock, hfree, updLocks_self]
    have hold := hinv.1 hfree
    constructor
    · intro hfree2
      have hfree3 : ((acquire_lock s.reg key (labels i)).2.locks key).locked =
          false := hfree2
      rw [hpost] at hfree3
      cases hfree3
    · intro _
      refine ⟨i, updPhase_self _ _ _, ?_, ?_, ?_⟩
      · show ((acquire_lock s.reg key (labels i)).2.locks key).current_operation =
          some (labels i)
        rw [hpost]
      · intro j hj
        have hj2 : updPhase s.phase i .started j = .started := hj
        by_cases hji : j = i
        · exact hji
        · rw [updPhase_other _ _ _ _ hji] at hj2
          rcases hold j with hp | hp <;> rw [hp] at hj2 <;> cases hj2
      · intro j o hj
        have hj2 : updPhase s.phase i .started j = .conflicted o := hj
        by_cases hji : j = i
        · subst hji
          rw [updPhase_self] at hj2
          cases hj2
        · rw [updPhase_other _ _ _ _ hji] at hj2
          rcases hold j with hp | hp <;> rw [hp] at hj2 <;> cases hj2
  | acquire_fail i h1 h2 =>
    have hlocked : (s.reg.locks key).locked = true := by
      cases hb : (s.reg.locks key).locked
      · simp [acquire_lock, get_worktree_lock, hb] at h2
      · rfl
    have hopeq : (get_lock_status s.reg key).operation =
        (s.reg.locks key).current_operation := by
      simp [get_lock_status, get_worktree_lock, hlocked]
    obtain ⟨w, hw, hop, huniq, hconf⟩ := hinv.2 hlocked
    have hwi : w ≠ i := by
      intro he
      rw [he, h1] at hw
      cases hw
    constructor
    · intro hfree
      have hfree2 : (s.reg.locks key).locked = false := hfree
      rw [hlocked] at hfree2
      cases hfree2
    · intro _
      refine ⟨w, ?_, hop, ?_, ?_⟩
      · show updPhase s.phase i
            (.conflicted (get_lock_status s.reg key).operation) w = .started
        rw [updPhase_other _ _ _ _ hwi]
        exact hw
      · intro j hj
        have hj2 : updPhase s.phase i
            (.conflicted (get_lock_status s.reg key).operation) j = .started := hj
        by_cases hji : j = i
        · subst hji
          rw [updPhase_self] at hj2
          cases hj2
        · rw [updPhase_other _ _ _ _ hji] at hj2
          exact huniq j hj2
      · intro j o hj
        have hj2 : updPhase s.phase i
            (.conflicted (get_lock_status s.reg key).operation) j =
              .conflicted o := hj
        by_cases hji : j = i
        · subst hji
          rw [updPhase_self] at hj2
          injection hj2 with hj3
          rw [← hj3, hopeq, hop]
        · rw [updPhase_other _ _ _ _ hji] at hj2
          exact hconf j o hj2

lemma SysInv_reach {n : Nat} (key : String) (labels : Fin n → String)
    {s s2 : DbtSys n} (hreach : DbtReach key labels s s2)
    (hinv : SysInv key labels s) : SysInv key labels s2 := by
  induction hreach with
  | refl => exact hinv
  | tail _ hstep ih => exact SysInv_step key labels ih hstep

/-- C8: of `n ≥ 1` concurrent `/api/dbt-command` callers for the same
resource key, in any interleaving in which every caller has produced its
response, exactly one caller has won the lock and proceeded (response
"started"); every other caller received the synchronous 409 conflict
response carrying the winning operation's label.  No queueing or waiting
occurs: each caller takes only its check and acquire steps. -/
theorem dbt_command_single_winner {n : Nat} (key : String) (labels : Fin n → String)
    (reg0 : Registry) (hfree : (reg0.locks key).locked = false) (hn : 0 < n)
    (s : DbtSys n) (hreach : DbtReach key labels (initSys n reg0) s)
    (hdone : ∀ i, (s.phase i).finished = true) :
    ∃ i, s.phase i = .started ∧
      (∀ j, s.phase j = .started → j = i) ∧
      (∀ j, ∀ o, s.phase j = .conflicted o → o = some (labels i)) := by
  have hinv0 : SysInv key labels (initSys n reg0) := by
    constructor
    · intro _ i
      exact Or.inl rfl
    · intro hl
      have hl2 : (reg0.locks key).locked = true := hl
      rw [hfree] at hl2
      cases hl2
  have hinv := SysInv_reach key labels hreach hinv0
  cases hl : (s.reg.locks key).locked
  · have h0 := hinv.1 hl ⟨0, hn⟩
    have hf := hdone ⟨0, hn⟩
    rcases h0 with h0 | h0 <;> rw [h0] at hf <;> cases hf
  · obtain ⟨i, hw, _, huniq, hconf⟩ := hinv.2 hl
    exact ⟨i, hw, huniq, hconf⟩

lemma c8_step1 : DbtStep "wt" c8labels c8s0 c8s1 :=
  DbtStep.check_free c8s0 0 rfl rfl

lemma c8_step2 : DbtStep "wt" c8labels c8s1 c8s2 :=
  DbtStep.acquire_win c8s1 0 rfl rfl

lemma c8_step3 : DbtStep "wt" c8labels c8s2 c8s3 :=
  DbtStep.check_busy c8s2 1 rfl rfl

lemma c8_reach : DbtReach "wt" c8labels c8s0 c8s3 :=
  Relation.ReflTransGen.tail
    (Relation.ReflTransGen.tail
      (Relation.ReflTransGen.tail Relation.ReflTransGen.refl c8_step1)
      c8_step2)
    c8_step3

/-- C8 witness: in the concrete two-caller race, exactly one caller started
and the other's conflict response carries the winner's label. -/
theorem dbt_command_single_winner_witness :
    ∃ i : Fin 2, c8s3.phase i = .started ∧
      (∀ j, c8s3.phase j = .started → j = i) ∧
      (∀ j, ∀ o, c8s3.phase j = .conflicted o → o = some (c8labels i)) :=
  dbt_command_single_winner "wt" c8labels Registry.init rfl (by decide) c8s3
    c8_reach (by decide)

end DbtUI
